import Mathlib

/-!
Verification development for the `subtext` HTTP payload parser
(`lib/index.js`).  The JavaScript source is shallowly embedded: pure
helpers become Lean functions, the event-driven multipart / file-write
logic becomes explicit step functions over small state records, and the
external collaborators (the `Content.type` header parser, the `Bourne`
JSON parser, the `querystring` form decoder) are taken as function
parameters, matching the spec's "external collaborator" boundary.
-/

set_option autoImplicit false

namespace Subtext

/-! ## Error model (`Boom` errors, by status code and message) -/

structure SubErr where
  statusCode : Nat
  message : String
deriving DecidableEq, Repr

/-- Boom `entityTooLarge(...)` as built at lib/index.js:59 and :498. -/
def entityTooLarge (m : Nat) : SubErr :=
  ⟨413, "Payload content length greater than maximum allowed: " ++ toString m⟩

def badRequest (msg : String) : SubErr := ⟨400, msg⟩

/-- Boom `unsupportedMediaType()` (lib/index.js:75, :124, :272). -/
def unsupportedMediaTypeErr : SubErr := ⟨415, "Unsupported Media Type"⟩

/-- Boom `clientTimeout()` (lib/index.js:333). -/
def clientTimeoutErr : SubErr := ⟨408, "Request Time-out"⟩

/-- The abort error built at lib/index.js:472. -/
def abortedErr : SubErr := badRequest "Client connection aborted"

/-- The dispenser-error wrapper built at lib/index.js:310. -/
def invalidMultipartErr : SubErr := badRequest "Invalid multipart payload format"

/-- The decoder-error wrapper built at lib/index.js:108. -/
def invalidCompressedErr : SubErr := badRequest "Invalid compressed payload"

/-- The JSON-error wrapper built at lib/index.js:287. -/
def invalidJsonErr : SubErr := badRequest "Invalid request payload JSON format"

/-! ## String helpers shared by several embedded functions -/

/-- Prefix test: `listHasPre p l` holds when `p` is a prefix of `l` (JS `startsWith`,
and the anchored head of the regexes in `object`). -/
def listHasPre : List Char → List Char → Bool
  | [], _ => true
  | _ :: _, [] => false
  | p :: ps, c :: cs => p == c && listHasPre ps cs

/-- Substring test: `hasSub needle hay` holds when `needle` occurs contiguously inside `hay`
(JavaScript `String.prototype.indexOf(needle) !== -1`). -/
def hasSub (needle hay : List Char) : Bool :=
  match hay with
  | [] => needle.isEmpty
  | _ :: t => listHasPre needle hay || hasSub needle t

/-- String form of the substring test: JS `hay.indexOf(needle) !== -1`. -/
def strContains (hay needle : String) : Bool :=
  hasSub needle.toList hay.toList

/-- Characters the JS regex `.` does not match (line terminators). -/
def isLineTerm (c : Char) : Bool :=
  c = '\n' || c = '\r' || c = '\u2028' || c = '\u2029'

/-- The regex `/^text\/.+$/` of lib/index.js:255. -/
def isTextMime (m : String) : Bool :=
  let cs := m.toList
  listHasPre "text/".toList cs &&
    decide ((cs.drop 5).length ≥ 1) &&
    (cs.drop 5).all (fun c => !(isLineTerm c))

/-- The regex `/^application\/(?:.+\+)?json$/` of lib/index.js:261:
`application/json` itself, or `application/` ++ middle ++ `json` where
middle has length ≥ 2, ends in `+`, and its earlier characters are
matched by `.` (no line terminators). -/
def isJsonMime (m : String) : Bool :=
  let cs := m.toList
  listHasPre "application/".toList cs &&
    (let rest := cs.drop 12
     rest == "json".toList ||
       (rest.drop (rest.length - 4) == "json".toList &&
        (let midd := rest.take (rest.length - 4)
         decide (midd.length ≥ 2) && midd.getLast? == some '+' &&
           midd.dropLast.all (fun c => !(isLineTerm c)))))

/-! ## JavaScript values stored in the multipart aggregate

Field events store strings; file parts store `{path, bytes}` items
(`filename` and `headers` are carried along in the source but play no
role in the claims, so the item is modelled by its `path` and `bytes`);
data-mode parts may store any decoded value, including a JSON array.
`Array.isArray` is the `arr` constructor test. -/

inductive JS where
  | str : String → JS
  | num : Int → JS
  | arr : List JS → JS
  | fileItem : (path : String) → (bytes : Nat) → JS

mutual

def JS.decEq : (a b : JS) → Decidable (a = b)
  | .str a, .str b =>
    if h : a = b then isTrue (by rw [h]) else
      isFalse (by intro hh; exact h (by injection hh))
  | .num a, .num b =>
    if h : a = b then isTrue (by rw [h]) else
      isFalse (by intro hh; exact h (by injection hh))
  | .arr a, .arr b =>
    match JS.decEqList a b with
    | isTrue h => isTrue (by rw [h])
    | isFalse h => isFalse (by intro hh; exact h (by injection hh))
  | .fileItem p x, .fileItem q y =>
    if h : p = q ∧ x = y then isTrue (by rw [h.1, h.2]) else
      isFalse (by intro hh; injection hh with h1 h2; exact h ⟨h1, h2⟩)
  | .str _, .num _ => isFalse (by intro h; exact JS.noConfusion h)
  | .str _, .arr _ => isFalse (by intro h; exact JS.noConfusion h)
  | .str _, .fileItem _ _ => isFalse (by intro h; exact JS.noConfusion h)
  | .num _, .str _ => isFalse (by intro h; exact JS.noConfusion h)
  | .num _, .arr _ => isFalse (by intro h; exact JS.noConfusion h)
  | .num _, .fileItem _ _ => isFalse (by intro h; exact JS.noConfusion h)
  | .arr _, .str _ => isFalse (by intro h; exact JS.noConfusion h)
  | .arr _, .num _ => isFalse (by intro h; exact JS.noConfusion h)
  | .arr _, .fileItem _ _ => isFalse (by intro h; exact JS.noConfusion h)
  | .fileItem _ _, .str _ => isFalse (by intro h; exact JS.noConfusion h)
  | .fileItem _ _, .num _ => isFalse (by intro h; exact JS.noConfusion h)
  | .fileItem _ _, .arr _ => isFalse (by intro h; exact JS.noConfusion h)

def JS.decEqList : (a b : List JS) → Decidable (a = b)
  | [], [] => isTrue rfl
  | [], _ :: _ => isFalse (by intro h; exact List.noConfusion h)
  | _ :: _, [] => isFalse (by intro h; exact List.noConfusion h)
  | x :: xs, y :: ys =>
    match JS.decEq x y, JS.decEqList xs ys with
    | isTrue h1, isTrue h2 => isTrue (by rw [h1, h2])
    | isFalse h1, _ => isFalse (by intro hh; injection hh with a b; exact h1 a)
    | _, isFalse h2 => isFalse (by intro hh; injection hh with a b; exact h2 b)

end

instance : DecidableEq JS := JS.decEq

def JS.isArr : JS → Bool
  | .arr _ => true
  | _ => false

/-- JS object property read (`data[name]`, `hasOwnProperty`). -/
def assocGet {κ β : Type} [DecidableEq κ] (l : List (κ × β)) (k : κ) : Option β :=
  match l with
  | [] => none
  | (k0, v) :: t => if k0 = k then some v else assocGet t k

/-- JS object property write: updating an existing key keeps its
position, a new key is appended (JS string-key insertion order). -/
def assocPut {κ β : Type} [DecidableEq κ] (l : List (κ × β)) (k : κ) (v : β) :
    List (κ × β) :=
  match l with
  | [] => [(k, v)]
  | (k0, w) :: t => if k0 = k then (k0, v) :: t else (k0, w) :: assocPut t k v

/-- The `set` closure of lib/index.js:337-348:
no entry yet stores the value directly; an existing array entry
(`Array.isArray(data[name])`) gets the value pushed; any other existing
entry is replaced by the two-element array `[old, value]`. -/
def set (data : List (String × JS)) (name : String) (value : JS) :
    List (String × JS) :=
  match assocGet data name with
  | none => assocPut data name value
  | some (.arr l) => assocPut data name (.arr (l ++ [value]))
  | some old => assocPut data name (.arr [old, value])

/-- Repeated `set` under one name, in arrival order. -/
def foldSet (data : List (String × JS)) (name : String) (vs : List JS) :
    List (String × JS) :=
  vs.foldl (fun d v => set d name v) data

/-! ## Byte-counting sink (`internals.Counter`, lib/index.js:481-502) -/

/-- One `_transform` call: the byte total is bumped by the chunk length
first; if a cap is set and the new total exceeds it the chunk is
swallowed and `entityTooLarge` raised, else the chunk passes through
unchanged. -/
def counterStep (maxBytes : Option Nat) (bytes : Nat) (chunk : List Nat) :
    Except SubErr (Nat × List Nat) :=
  let b := bytes + chunk.length
  match maxBytes with
  | some m => if b > m then .error (entityTooLarge m) else .ok (b, chunk)
  | none => .ok (b, chunk)

/-- Feeding a chunk sequence through the counter: passed-through chunks,
final byte total, and the error (if any); processing stops at the first
failing chunk, as a stream error destroys the pipeline. -/
def counterRun (maxBytes : Option Nat) (bytes : Nat) :
    List (List Nat) → List (List Nat) × Nat × Option SubErr
  | [] => ([], bytes, none)
  | c :: cs =>
    match counterStep maxBytes bytes c with
    | .error e => ([], bytes + c.length, some e)
    | .ok (b, out) =>
      let r := counterRun maxBytes b cs
      (out :: r.1, r.2.1, r.2.2)

/-- Total length of a chunk sequence. -/
def chunksLen (cs : List (List Nat)) : Nat :=
  cs.foldr (fun c a => c.length + a) 0

/-- Number of leading chunks whose cumulative total stays within `m`
starting from `bytes` (the chunk at this index, if any, is the first
whose addition exceeds the cap). -/
def cutoff (m bytes : Nat) : List (List Nat) → Nat
  | [] => 0
  | c :: cs => if bytes + c.length > m then 0 else cutoff m (bytes + c.length) cs + 1

/-! ## Content gate (`internals.Parser.prototype.read`, lib/index.js:47-87) -/

/-- Numeric value of a decimal digit list. -/
def digitsToNat (ds : List Char) : Nat :=
  ds.foldl (fun a c => a * 10 + (c.toNat - 48)) 0

/-- JavaScript `parseInt(s, 10)`: skip leading whitespace, optional
sign, then the longest digit run; `none` models `NaN` (no digits). -/
def jsParseInt (s : String) : Option Int :=
  let cs := s.toList.dropWhile (fun c => c.isWhitespace)
  let sign : Int := match cs.head? with | some '-' => -1 | _ => 1
  let cs2 := match cs.head? with
    | some '-' => cs.tail
    | some '+' => cs.tail
    | _ => cs
  let ds := cs2.takeWhile (fun c => c.isDigit)
  if ds.isEmpty then none else some (sign * (digitsToNat ds : Int))

/-- Guard of lib/index.js:55-57: the header is a truthy string and
`parseInt(contentLength, 10) > maxBytes` (a `NaN` comparison is false). -/
def clExceeds (m : Nat) (cl : Option String) : Bool :=
  match cl with
  | none => false
  | some s =>
    !(s == "") &&
      (match jsParseInt s with
       | some n => decide ((m : Int) < n)
       | none => false)

/-- JavaScript `a || b` over an optional string: an absent or empty
(falsy) string falls through to the default. -/
def jsOr (a : Option String) (b : String) : String :=
  match a with
  | some s => if s = "" then b else s
  | none => b

/-- Resolved content type as returned by the external `Content.type`
(only its `mime` field is consumed by this module). -/
structure CT where
  mime : String
deriving DecidableEq, Repr

/-- Setting `options.allow`: absent, a single string, or a list. -/
inductive AllowSetting where
  | unset
  | one : String → AllowSetting
  | many : List String → AllowSetting
deriving DecidableEq, Repr

/-- Guard of lib/index.js:72-73, `allow && allow.indexOf(mime) === -1`:
an absent or empty-string (falsy) `allow` never rejects; a string uses
JS substring `indexOf`; an array uses element membership. -/
def allowRejects (allow : AllowSetting) (mime : String) : Bool :=
  match allow with
  | .unset => false
  | .one s => if s = "" then false else !(strContains s mime)
  | .many l => !(l.contains mime)

/-- Setting `options.parse`: `true`, `false` or `'gunzip'`. -/
inductive ParseMode where
  | on
  | off
  | gunzip
deriving DecidableEq, Repr

structure ReadSettings where
  maxBytes : Option Nat
  allow : AllowSetting
  override : Option String
  defaultContentType : Option String
  parse : ParseMode
deriving DecidableEq, Repr

/-- Request header view consumed by `read` (raw header strings). -/
structure ReqHeaders where
  contentLength : Option String
  contentType : Option String
deriving DecidableEq, Repr

/-- Outcome of the content gate: an immediate failure, or the resolved
content type handed to `parse()` (`settings.parse === true`) or to
`raw()` (any other `parse` setting). -/
inductive ReadResult where
  | fail : SubErr → ReadResult
  | parseWith : CT → ReadResult
  | rawWith : CT → ReadResult
deriving DecidableEq, Repr

/-- Stages of `read` after the content-length guard (lib/index.js:62-87).
The content-type resolver `ctFn` is the external `Content.type`. -/
def readContentType (st : ReadSettings) (h : ReqHeaders)
    (ctFn : String → Except SubErr CT) : ReadResult :=
  let header := jsOr st.override (jsOr h.contentType
    (jsOr st.defaultContentType "application/octet-stream"))
  match ctFn header with
  | .error e => .fail e
  | .ok ct =>
    if allowRejects st.allow ct.mime then .fail unsupportedMediaTypeErr
    else if st.parse = .on then .parseWith ct
    else .rawWith ct

/-- Content gate `read` (lib/index.js:47-87).  `body` stands for the
request's byte stream: `read` never touches it, which the theorems
exploit to state "fails before any body byte is read". -/
def read {β : Type} (st : ReadSettings) (h : ReqHeaders) (_body : β)
    (ctFn : String → Except SubErr CT) : ReadResult :=
  match st.maxBytes with
  | some m =>
    if clExceeds m h.contentLength then .fail (entityTooLarge m)
    else readContentType st h ctFn
  | none => readContentType st h ctFn

/-! ## Parse dispatch (`internals.Parser.prototype.parse`, lib/index.js:90-173) -/

/-- Setting `options.multipart`: absent, `false`, or `{ output }`. -/
inductive MultipartSetting where
  | unset
  | off
  | withOutput : String → MultipartSetting
deriving DecidableEq, Repr

/-- Where `parse` routes the (decoded, tapped) source.  `multipartScan`
stands for constructing the `Pez.Dispenser` and running the multipart
machine; a `fail` result never reaches the scanner. -/
inductive ParseDispatch where
  | fail : SubErr → ParseDispatch
  | multipartScan : ParseDispatch
  | streamOut : ParseDispatch
  | fileOut : ParseDispatch
  | dataOut : ParseDispatch
deriving DecidableEq, Repr

/-- Routing logic of lib/index.js:120-155: the multipart branch runs
first (failing fast when `options.multipart === false`), then the
output-mode dispatch. -/
def parseDispatch (mime : String) (multipart : MultipartSetting)
    (output : String) : ParseDispatch :=
  if mime = "multipart/form-data" then
    if multipart = .off then .fail unsupportedMediaTypeErr else .multipartScan
  else if output = "stream" then .streamOut
  else if output = "file" then .fileOut
  else .dataOut

/-! ## Value materializer (`object` / `internals.jsonParse`,
lib/index.js:245-291) and the data-output wrapper of `parse`
(lib/index.js:155-172).

Buffers are modelled by their UTF-8 text (a buffer is empty exactly when
its text is); the `Bourne` JSON parser and the `querystring` form parser
are external collaborators passed as functions. -/

/-- Decoded payload values (`result.payload` shapes in data mode). -/
inductive PayloadVal (J : Type) where
  | nullV
  | buf : String → PayloadVal J
  | str : String → PayloadVal J
  | json : J → PayloadVal J
  | form : List (String × String) → PayloadVal J
deriving DecidableEq, Repr

/-- Isolated `internals.jsonParse` (lib/index.js:276-291): empty payload
yields `null`; otherwise the external parser's failure becomes the
`Invalid request payload JSON format` bad-request error. -/
def jsonParse {J : Type} (bourne : String → Except String J)
    (payload : String) : Except SubErr (Option J) :=
  if payload.length = 0 then .ok none
  else
    match bourne payload with
    | .ok parsed => .ok (some parsed)
    | .error _ => .error invalidJsonErr

/-- Content-type dispatch `object` (lib/index.js:245-273), with the
source's branch order: binary, text, JSON, form-encoded, else 415. -/
def object {J : Type} (bourne : String → Except String J)
    (qs : String → List (String × String)) (payload : String)
    (mime : String) : Except SubErr (PayloadVal J) :=
  if mime = "application/octet-stream" then
    .ok (if payload.length ≠ 0 then .buf payload else .nullV)
  else if isTextMime mime then .ok (.str payload)
  else if isJsonMime mime then
    match jsonParse bourne payload with
    | .error e => .error e
    | .ok none => .ok .nullV
    | .ok (some j) => .ok (.json j)
  else if mime = "application/x-www-form-urlencoded" then
    .ok (.form (if payload.length ≠ 0 then qs payload else []))
  else .error unsupportedMediaTypeErr

/-- Data-output tail of `parse` (lib/index.js:161-171): on a decode
error the result payload is `null` and the raw payload text is attached
to the error (`err.raw = payload`); on success the decoded value is the
result payload. -/
def parseDataStage {J : Type} (bourne : String → Except String J)
    (qs : String → List (String × String)) (payload : String)
    (mime : String) : PayloadVal J × Option (SubErr × String) :=
  match object bourne qs payload mime with
  | .error e => (.nullV, some (e, payload))
  | .ok v => (v, none)

/-! ## File materializer (`internals.Parser.prototype.writeFile`,
lib/index.js:444-478)

The write settles on the first of three signals: the destination file's
`close` (success), the destination file's `error` (its own write errors
and, through `internals.pipe`, the byte counter's `entityTooLarge`), or
the originating request's `aborted`.  `finalize` is `Hoek.once`-wrapped
and detaches the listeners, so later signals are dropped. -/

inductive WFEvent where
  | closeEvt
  | errorEvt : SubErr → WFEvent
  | abortedEvt
deriving DecidableEq, Repr

/-- Observable effects of one `writeFile`, in order of occurrence. -/
inductive WFAction where
  | destroyFile
  | unlinkTemp
  | cbOk : (path : String) → (bytes : Nat) → WFAction
  | cbErr : SubErr → WFAction
deriving DecidableEq, Repr

/-- Error carried by the settling signal (lib/index.js:467-475). -/
def wfEventErr : WFEvent → Option SubErr
  | .closeEvt => none
  | .errorEvt e => some e
  | .abortedEvt => some abortedErr

/-- Body of `finalize` (lib/index.js:450-465): success reports the path
and counted bytes; failure destroys the handle, unlinks the temp file
(its callback ignores `fsErr`, so `unlinkFails` cannot change the
emitted actions) and only then reports the triggering error. -/
def wfFinalize (unlinkFails : Bool) (path : String) (bytes : Nat) :
    Option SubErr → List WFAction
  | none => [.cbOk path bytes]
  | some e =>
    match unlinkFails with
    | true => [.destroyFile, .unlinkTemp, .cbErr e]
    | false => [.destroyFile, .unlinkTemp, .cbErr e]

/-- Whether the temp file still exists after settling: kept on success
(handed to the caller), gone on failure unless the unlink itself failed
(which is swallowed). -/
def wfTempExistsAfter (unlinkFails : Bool) : Option SubErr → Bool
  | none => true
  | some _ => unlinkFails

/-- One whole `writeFile`: `Hoek.once` makes the first signal settle the
write, every later signal is dropped. -/
def wfRun (unlinkFails : Bool) (path : String) (bytes : Nat) :
    List WFEvent → List WFAction
  | [] => []
  | e :: _ => wfFinalize unlinkFails path bytes (wfEventErr e)

/-! ## Multipart aggregator (`internals.Parser.prototype.multipart`,
lib/index.js:294-441), file output mode

The `Pez.Dispenser` scanner, the timer, the per-part `writeFile`s and a
possible upstream decompression stage all race; their signals are the
events below.  `next` is `Hoek.once`-wrapped (lib/index.js:297), the
latch of the spec.  Two fields are specification-only instrumentation
and influence no behavior: `closeSeen` records that the scanner's
`close` event was observed (the source's `closed` flag is set only on
the deferring branch), and `tempFiles` records the ids whose temporary
file currently exists on disk (created by `writeFile` at part start,
removed by its cleanup path before a failure callback). -/

structure MPState where
  settled : Bool
  data : List (String × JS)
  pendingFiles : List (Nat × String)
  nextId : Nat
  closed : Bool
  timerActive : Bool
  listeners : Bool
  closeSeen : Bool
  tempFiles : List Nat
deriving DecidableEq

inductive MPEvent where
  /-- Dispenser `field` event (lib/index.js:422). -/
  | field : String → String → MPEvent
  /-- Dispenser `part` event in file output mode (lib/index.js:356-361):
  starts a `writeFile` under a fresh id. -/
  | partFile : String → MPEvent
  /-- A part's `writeFile` callback with success (lib/index.js:361-384). -/
  | fileDoneOk : Nat → String → Nat → MPEvent
  /-- A part's `writeFile` callback with an error (lib/index.js:363-367);
  `writeFile` has already destroyed and unlinked that part's temp file. -/
  | fileDoneErr : Nat → SubErr → MPEvent
  /-- Dispenser `close` event (lib/index.js:426-436). -/
  | close : MPEvent
  /-- Dispenser `error` event (lib/index.js:308-313). -/
  | dispErr : MPEvent
  /-- Content-decoder `error` event (lib/index.js:106-109); its listener
  is attached in `parse` and never removed by `finalize`. -/
  | decoderErr : MPEvent
  /-- Expiry of the client timeout (lib/index.js:331-334). -/
  | timeout : MPEvent
deriving DecidableEq, Repr

/-- Deliveries to the caller: the only outward signals of a parse. -/
inductive MPAction where
  | deliver : List (String × JS) → MPAction
  | deliverErr : SubErr → MPAction
deriving DecidableEq

/-- The `Hoek.once`-wrapped `next`: the first call settles and is let
through, every later call is silently dropped. -/
def latchNext (s : MPState) (a : MPAction) : MPState × List MPAction :=
  if s.settled then (s, []) else ({ s with settled := true }, [a])

/-- `finalize` (lib/index.js:316-326): clears the timer, detaches the
dispenser listeners, sets the result payload to the aggregate and calls
`next()`. -/
def mpFinalize (s : MPState) : MPState × List MPAction :=
  latchNext { s with timerActive := false, listeners := false }
    (.deliver s.data)

/-- One event of the multipart machine.  Dispenser events are ignored
once `finalize` detached its listeners (the source's `once`-style
`error`/`close` registrations are subsumed by the latch); a `writeFile`
callback fires exactly once per pending id. -/
def mpStep (s : MPState) : MPEvent → MPState × List MPAction
  | .field n v =>
    if s.listeners then ({ s with data := set s.data n (.str v) }, []) else (s, [])
  | .partFile n =>
    if s.listeners then
      ({ s with pendingFiles := (s.nextId, n) :: s.pendingFiles,
                nextId := s.nextId + 1,
                tempFiles := s.nextId :: s.tempFiles }, [])
    else (s, [])
  | .fileDoneOk id path bytes =>
    match assocGet s.pendingFiles id with
    | none => (s, [])
    | some n =>
      let s1 := { s with
        pendingFiles := s.pendingFiles.filter (fun p => p.1 != id),
        data := set s.data n (.fileItem path bytes) }
      if s1.closed && s1.pendingFiles.isEmpty then mpFinalize s1 else (s1, [])
  | .fileDoneErr id e =>
    match assocGet s.pendingFiles id with
    | none => (s, [])
    | some _ =>
      let s1 := { s with
        pendingFiles := s.pendingFiles.filter (fun p => p.1 != id),
        tempFiles := s.tempFiles.filter (fun j => j != id) }
      latchNext s1 (.deliverErr e)
  | .close =>
    if s.listeners then
      let s1 := { s with closeSeen := true }
      if s1.pendingFiles.isEmpty then mpFinalize s1
      else ({ s1 with closed := true }, [])
    else (s, [])
  | .dispErr =>
    if s.listeners then latchNext s (.deliverErr invalidMultipartErr)
    else (s, [])
  | .decoderErr => latchNext s (.deliverErr invalidCompressedErr)
  | .timeout =>
    if s.timerActive then
      latchNext { s with timerActive := false } (.deliverErr clientTimeoutErr)
    else (s, [])

/-- Running the machine over an event trace, collecting deliveries. -/
def mpRun (s : MPState) : List MPEvent → MPState × List MPAction
  | [] => (s, [])
  | e :: es =>
    let r1 := mpStep s e
    let r2 := mpRun r1.1 es
    (r2.1, r1.2 ++ r2.2)

/-- Initial state of one multipart parse; the timer is armed when a
positive `timeout` is configured (lib/index.js:328-335). -/
def mpInit (timerOn : Bool) : MPState :=
  { settled := false, data := [], pendingFiles := [], nextId := 0,
    closed := false, timerActive := timerOn, listeners := true,
    closeSeen := false, tempFiles := [] }

/-- 1 when the latch has settled, else 0. -/
def settledBit (s : MPState) : Nat := if s.settled then 1 else 0

/-- Reachability invariant: the deferring `closed` flag is only ever set
after the scanner's `close` event. -/
def mpInv (s : MPState) : Bool := !s.closed || s.closeSeen

/-! ## Helper lemmas -/

theorem strLenNeZero {p : String} (h : p ≠ "") : p.length ≠ 0 := by
  cases p with
  | mk data =>
    cases data with
    | nil => exact absurd rfl h
    | cons c t => simp [String.length]

theorem listHasPre_head {p : Char} {ps l : List Char}
    (h : listHasPre (p :: ps) l = true) : ∃ t, l = p :: t := by
  cases l with
  | nil => simp [listHasPre] at h
  | cons c t =>
    simp [listHasPre] at h
    exact ⟨t, by rw [h.1]⟩

/-- A mime matched by the anchored `application/` regex head cannot also
match the `text/` head. -/
theorem app_not_text {m : String}
    (h : listHasPre "application/".toList m.toList = true) :
    isTextMime m = false := by
  have e1 : "application/".toList = 'a' :: "pplication/".toList := rfl
  rw [e1] at h
  obtain ⟨t, ht⟩ := listHasPre_head h
  unfold isTextMime
  have e2 : "text/".toList = 't' :: "ext/".toList := rfl
  rw [e2, ht]
  simp [listHasPre]

theorem isJsonMime_app {m : String} (h : isJsonMime m = true) :
    listHasPre "application/".toList m.toList = true := by
  unfold isJsonMime at h
  rw [Bool.and_eq_true] at h
  exact h.1

theorem isJsonMime_ne_octet {m : String} (h : isJsonMime m = true) :
    m ≠ "application/octet-stream" := by
  intro he
  rw [he] at h
  exact absurd h (by decide)

theorem assocGet_put {κ β : Type} [DecidableEq κ]
    (l : List (κ × β)) (k : κ) (v : β) : assocGet (assocPut l k v) k = some v := by
  induction l with
  | nil => simp [assocGet, assocPut]
  | cons hd t ih =>
    by_cases hk : hd.1 = k
    · simp [assocGet, assocPut, hk]
    · simp [assocGet, assocPut, hk, ih]

theorem set_fresh (data : List (String × JS)) (name : String) (v : JS)
    (h : assocGet data name = none) : set data name v = assocPut data name v := by
  simp [set, h]

theorem set_second_nonarr (name : String) (v1 v2 : JS) (h1 : v1.isArr = false) :
    set [(name, v1)] name v2 = [(name, .arr [v1, v2])] := by
  cases v1 <;> simp_all [set, assocGet, assocPut, JS.isArr]

theorem set_on_arr (name : String) (l : List JS) (v : JS) :
    set [(name, .arr l)] name v = [(name, .arr (l ++ [v]))] := by
  simp [set, assocGet, assocPut]

theorem foldSet_on_arr (name : String) (vs : List JS) :
    ∀ l : List JS, foldSet [(name, .arr l)] name vs = [(name, .arr (l ++ vs))] := by
  induction vs with
  | nil => intro l; simp [foldSet]
  | cons v vs ih =>
    intro l
    have step : set [(name, .arr l)] name v = [(name, .arr (l ++ [v]))] :=
      set_on_arr name l v
    calc foldSet [(name, .arr l)] name (v :: vs)
        = foldSet (set [(name, .arr l)] name v) name vs := rfl
      _ = foldSet [(name, .arr (l ++ [v]))] name vs := by rw [step]
      _ = [(name, .arr ((l ++ [v]) ++ vs))] := ih (l ++ [v])
      _ = [(name, .arr (l ++ v :: vs))] := by simp

/-! ## Claim theorems -/

/-- C2: for every file-mode write, a failing settle signal (write error,
byte-count overflow arriving as the destination's error event, or client
abort) destroys the handle and unlinks the temp file before the callback
reports the triggering error; a later signal is dropped and the unlink's
own outcome cannot change what is reported (it is swallowed); a
successful settle reports the path and counted bytes. -/
theorem writeFile_cleanup (uf : Bool) (path : String) (bytes : Nat)
    (e : SubErr) (rest : List WFEvent) :
    wfRun uf path bytes (.errorEvt e :: rest)
        = [.destroyFile, .unlinkTemp, .cbErr e] ∧
    wfRun uf path bytes (.abortedEvt :: rest)
        = [.destroyFile, .unlinkTemp, .cbErr abortedErr] ∧
    wfRun uf path bytes (.closeEvt :: rest) = [.cbOk path bytes] ∧
    wfRun true path bytes (.errorEvt e :: rest)
        = wfRun false path bytes (.errorEvt e :: rest) ∧
    wfTempExistsAfter false (some e) = false := by
  cases uf <;>
    simp [wfRun, wfFinalize, wfEventErr, wfTempExistsAfter]

/-- C3: a declared content-length strictly above a configured `maxBytes`
makes `read` fail with the 413 `entityTooLarge` error, for every
content-type resolver and every body — i.e. before content-type
resolution and before any body byte is consumed. -/
theorem content_length_gate {β : Type} (st : ReadSettings) (h : ReqHeaders)
    (body : β) (m : Nat) (s : String) (n : Int)
    (hm : st.maxBytes = some m) (hc : h.contentLength = some s)
    (hs : s ≠ "") (hp : jsParseInt s = some n) (hn : (m : Int) < n) :
    (∀ ctFn : String → Except SubErr CT,
        read st h body ctFn = .fail (entityTooLarge m)) ∧
    (entityTooLarge m).statusCode = 413 := by
  refine ⟨fun ctFn => ?_, rfl⟩
  have hcl : clExceeds m (some s) = true := by
    show (!(s == "") && (match jsParseInt s with
      | some n => decide ((m : Int) < n)
      | none => false)) = true
    rw [hp]
    simp [hs, hn]
  unfold read
  rw [hm]
  show (if clExceeds m h.contentLength = true
      then ReadResult.fail (entityTooLarge m) else readContentType st h ctFn)
    = ReadResult.fail (entityTooLarge m)
  rw [hc, hcl]
  simp

/-- C3 witness: a concrete 12-byte limit against a declared length of
100 fails 413 under an arbitrary concrete resolver and body. -/
theorem content_length_gate_witness :
    read ⟨some 12, .unset, none, none, .on⟩ ⟨some "100", none⟩ (0 : Nat)
        (fun h => .ok ⟨h⟩) = .fail (entityTooLarge 12) ∧
    (entityTooLarge 12).statusCode = 413 := by
  have h := content_length_gate (β := Nat) ⟨some 12, .unset, none, none, .on⟩
    ⟨some "100", none⟩ 0 12 "100" 100 rfl rfl (by decide) (by decide) (by decide)
  exact ⟨h.1 _, h.2⟩

/-- C8: a `multipart/form-data` body parsed with `multipart: false`
fails with the 415 `unsupportedMediaType` error and never routes into
the multipart scanner. -/
theorem multipart_disabled_fails_fast (multipart : MultipartSetting)
    (output : String) (hm : multipart = .off) :
    parseDispatch "multipart/form-data" multipart output
        = .fail unsupportedMediaTypeErr ∧
    parseDispatch "multipart/form-data" multipart output ≠ .multipartScan ∧
    unsupportedMediaTypeErr.statusCode = 415 := by
  subst hm
  refine ⟨rfl, ?_, rfl⟩
  intro hcon
  simp [parseDispatch] at hcon

/-- C8 witness: concrete check with `output: 'data'`. -/
theorem multipart_disabled_fails_fast_witness :
    parseDispatch "multipart/form-data" .off "data"
        = .fail unsupportedMediaTypeErr ∧
    parseDispatch "multipart/form-data" .off "data" ≠ .multipartScan ∧
    unsupportedMediaTypeErr.statusCode = 415 :=
  multipart_disabled_fails_fast .off "data" rfl

theorem listHasPre_iff (p : List Char) : ∀ l : List Char,
    listHasPre p l = true ↔ ∃ r, l = p ++ r := by
  induction p with
  | nil =>
    intro l
    constructor
    · intro _
      exact ⟨l, rfl⟩
    · intro _
      rfl
  | cons p ps ih =>
    intro l
    cases l with
    | nil =>
      constructor
      · intro h
        simp [listHasPre] at h
      · rintro ⟨r, hr⟩
        simp at hr
    | cons c t =>
      constructor
      · intro h
        simp [listHasPre] at h
        obtain ⟨r, hr⟩ := (ih t).mp h.2
        refine ⟨r, ?_⟩
        rw [hr, List.cons_append, h.1]
      · rintro ⟨r, hr⟩
        rw [List.cons_append] at hr
        injection hr with h1 h2
        simp [listHasPre, h1]
        exact (ih t).mpr ⟨r, h2⟩

/-- JS `indexOf` finds the needle exactly when it occurs contiguously. -/
theorem hasSub_iff (needle : List Char) : ∀ hay : List Char,
    hasSub needle hay = true ↔ ∃ l r, hay = l ++ needle ++ r := by
  intro hay
  induction hay with
  | nil =>
    constructor
    · intro h
      simp [hasSub, List.isEmpty_iff] at h
      exact ⟨[], [], by simp [h]⟩
    · rintro ⟨l, r, hr⟩
      simp [hasSub, List.isEmpty_iff]
      have h3 : l = [] ∧ needle = [] ∧ r = [] := by simpa using hr.symm
      exact h3.2.1
  | cons c t ih =>
    constructor
    · intro h
      simp only [hasSub, Bool.or_eq_true] at h
      cases h with
      | inl h =>
        obtain ⟨r, hr⟩ := (listHasPre_iff needle (c :: t)).mp h
        exact ⟨[], r, by simpa using hr⟩
      | inr h =>
        obtain ⟨l, r, hr⟩ := ih.mp h
        exact ⟨c :: l, r, by simp [hr]⟩
    · rintro ⟨l, r, hr⟩
      simp only [hasSub, Bool.or_eq_true]
      cases l with
      | nil =>
        exact Or.inl ((listHasPre_iff needle (c :: t)).mpr ⟨r, by simpa using hr⟩)
      | cons x xs =>
        rw [List.cons_append, List.cons_append] at hr
        injection hr with h1 h2
        exact Or.inr (ih.mpr ⟨xs, r, by simpa using h2⟩)

/-- C10: when `options.allow` is a single string, the check is JS string
`indexOf`, i.e. the resolved mime is accepted exactly when it occurs as
a contiguous substring of the allow string — not only on exact match; in
particular allow `application/json-patch+json` lets a resolved mime of
`application/json` through the content gate. -/
theorem allow_string_is_substring_check (s mime : String) (hs : s ≠ "") :
    (allowRejects (.one s) mime = false
        ↔ ∃ l r, s.toList = l ++ mime.toList ++ r) ∧
    read ⟨none, .one "application/json-patch+json", none, none, .on⟩
        ⟨none, some "application/json"⟩ (0 : Nat) (fun h => .ok ⟨h⟩)
      = .parseWith ⟨"application/json"⟩ := by
  constructor
  · simp only [allowRejects, if_neg hs]
    have hb : (!strContains s mime) = false ↔ strContains s mime = true := by
      cases hv : strContains s mime <;> simp [hv]
    rw [hb]
    exact hasSub_iff mime.toList s.toList
  · decide

/-- C10 witness: the substring acceptance at the concrete pair of mimes
from the claim, with the explicit decomposition. -/
theorem allow_string_is_substring_check_witness :
    allowRejects (.one "application/json-patch+json") "application/json"
        = false ∧
    read ⟨none, .one "application/json-patch+json", none, none, .on⟩
        ⟨none, some "application/json"⟩ (0 : Nat) (fun h => .ok ⟨h⟩)
      = .parseWith ⟨"application/json"⟩ := by
  have h := allow_string_is_substring_check "application/json-patch+json"
    "application/json" (by decide)
  exact ⟨h.1.mpr ⟨[], "-patch+json".toList, by decide⟩, h.2⟩

/-- C5 counterexample: when the first value stored under a name is
itself an array (as a data-mode part whose JSON body is an array), the
second occurrence is pushed into that array instead of converting the
entry into a two-element list `[first, second]`, contradicting the claim
as stated. -/
theorem set_array_first_counterexample :
    set (set [] "x" (.arr [.num 1, .num 2])) "x" (.str "Second")
        = [("x", .arr [.num 1, .num 2, .str "Second"])] ∧
    JS.arr [.num 1, .num 2, .str "Second"]
        ≠ .arr [.arr [.num 1, .num 2], .str "Second"] :=
  ⟨rfl, by simp⟩

/-- C5 (amended): provided the first value stored under a name is not
itself an array, the first occurrence is stored directly, the second
converts the entry into the two-element list `[v1, v2]`, and every
further occurrence is appended, yielding arrival order. -/
theorem set_repeated_names (name : String) (v1 v2 : JS) (vs : List JS)
    (data : List (String × JS)) (h1 : v1.isArr = false)
    (hd : assocGet data name = none) :
    assocGet (set data name v1) name = some v1 ∧
    set [] name v1 = [(name, v1)] ∧
    set (set [] name v1) name v2 = [(name, .arr [v1, v2])] ∧
    foldSet [] name (v1 :: v2 :: vs) = [(name, .arr (v1 :: v2 :: vs))] := by
  refine ⟨?_, rfl, set_second_nonarr name v1 v2 h1, ?_⟩
  · rw [set_fresh data name v1 hd]
    exact assocGet_put data name v1
  · have e1 : foldSet [] name (v1 :: v2 :: vs)
        = foldSet (set (set [] name v1) name v2) name vs := rfl
    rw [e1, show set [] name v1 = [(name, v1)] from rfl,
        set_second_nonarr name v1 v2 h1, foldSet_on_arr name vs [v1, v2]]
    simp

/-- C5 witness: fields "x" = First, Second, Third aggregate to the
ordered three-element list of the claim's example. -/
theorem set_repeated_names_witness :
    foldSet [] "x" [.str "First", .str "Second", .str "Third"]
        = [("x", .arr [.str "First", .str "Second", .str "Third"])] :=
  (set_repeated_names "x" (.str "First") (.str "Second") [.str "Third"]
    [] rfl rfl).2.2.2

/-- On a JSON-family mime, `object` reduces to the `jsonParse` branch
(the earlier binary and text branches cannot match). -/
theorem object_json {J : Type} (bourne : String → Except String J)
    (qs : String → List (String × String)) (payload mime : String)
    (hm : isJsonMime mime = true) :
    object bourne qs payload mime
      = (match jsonParse bourne payload with
         | .error e => .error e
         | .ok none => .ok .nullV
         | .ok (some j) => .ok (.json j)) := by
  have h1 : mime ≠ "application/octet-stream" := isJsonMime_ne_octet hm
  have h2 : isTextMime mime = false := app_not_text (isJsonMime_app hm)
  simp [object, h1, h2, hm]

/-- C4: in data mode on any JSON-family mime (`application/json` or
`application/*+json`): an empty body yields the null payload; a
non-empty body the external JSON parser accepts yields that structured
value; a body it rejects fails with the 400 `InvalidJson` error carrying
the raw payload. -/
theorem json_media_type_data_mode {J : Type} (bourne : String → Except String J)
    (qs : String → List (String × String)) (mime : String)
    (hm : isJsonMime mime = true) :
    parseDataStage bourne qs "" mime = (.nullV, none) ∧
    (∀ p v, p ≠ "" → bourne p = .ok v →
        parseDataStage bourne qs p mime = (.json v, none)) ∧
    (∀ p msg, p ≠ "" → bourne p = .error msg →
        parseDataStage bourne qs p mime = (.nullV, some (invalidJsonErr, p))) ∧
    invalidJsonErr.statusCode = 400 := by
  refine ⟨?_, ?_, ?_, rfl⟩
  · unfold parseDataStage
    rw [object_json bourne qs "" mime hm]
    rfl
  · intro p v hp hv
    unfold parseDataStage
    rw [object_json bourne qs p mime hm]
    have hj : jsonParse bourne p = .ok (some v) := by
      unfold jsonParse
      rw [if_neg (strLenNeZero hp), hv]
    rw [hj]
  · intro p msg hp hv
    unfold parseDataStage
    rw [object_json bourne qs p mime hm]
    have hj : jsonParse bourne p = .error invalidJsonErr := by
      unfold jsonParse
      rw [if_neg (strLenNeZero hp), hv]
    rw [hj]

/-- C4 witness: a toy external parser accepting exactly "7", on the
concrete mime `application/json`. -/
theorem json_media_type_data_mode_witness :
    parseDataStage (J := Nat) (fun s => if s = "7" then .ok 7 else .error "bad")
        (fun _ => []) "" "application/json" = (.nullV, none) ∧
    parseDataStage (fun s => if s = "7" then .ok 7 else .error "bad")
        (fun _ => []) "7" "application/json" = (.json 7, none) ∧
    parseDataStage (J := Nat) (fun s => if s = "7" then .ok 7 else .error "bad")
        (fun _ => []) "nope" "application/json"
      = (.nullV, some (invalidJsonErr, "nope")) := by
  have h := json_media_type_data_mode (J := Nat)
    (fun s => if s = "7" then .ok 7 else .error "bad") (fun _ => [])
    "application/json" (by decide)
  exact ⟨h.1, h.2.1 "7" 7 (by decide) rfl, h.2.2.1 "nope" "bad" (by decide) rfl⟩

theorem chunksLen_nil : chunksLen [] = 0 := rfl

theorem chunksLen_cons (c : List Nat) (cs : List (List Nat)) :
    chunksLen (c :: cs) = c.length + chunksLen cs := rfl

/-- Passed-through chunks are exactly the input prefix up to the cutoff. -/
theorem counterRun_take (m : Nat) (cs : List (List Nat)) : ∀ bytes : Nat,
    (counterRun (some m) bytes cs).1 = cs.take (cutoff m bytes cs) := by
  induction cs with
  | nil => intro bytes; rfl
  | cons c cs ih =>
    intro bytes
    by_cases hb : bytes + c.length > m
    · simp [counterRun, counterStep, cutoff, hb]
    · simp [counterRun, counterStep, cutoff, hb, ih]

/-- The sink reports no error exactly when the whole input fits. -/
theorem counterRun_err_iff (m : Nat) (cs : List (List Nat)) :
    ∀ bytes : Nat, bytes ≤ m →
      ((counterRun (some m) bytes cs).2.2 = none ↔ bytes + chunksLen cs ≤ m) := by
  induction cs with
  | nil => intro bytes hb; simpa [counterRun, chunksLen_nil] using hb
  | cons c cs ih =>
    intro bytes hb
    by_cases hc : bytes + c.length > m
    · simp [counterRun, counterStep, hc, chunksLen_cons]
      omega
    · simp only [counterRun, counterStep, chunksLen_cons]
      simp [hc]
      have h2 := ih (bytes + c.length) (by omega)
      constructor
      · intro hnone
        have := h2.mp hnone
        omega
      · intro hle
        exact h2.mpr (by omega)

/-- On success the final byte total is the total input length. -/
theorem counterRun_bytes (m : Nat) (cs : List (List Nat)) : ∀ bytes : Nat,
    (counterRun (some m) bytes cs).2.2 = none →
      (counterRun (some m) bytes cs).2.1 = bytes + chunksLen cs := by
  induction cs with
  | nil => intro bytes _; simp [counterRun, chunksLen_nil]
  | cons c cs ih =>
    intro bytes hn
    by_cases hc : bytes + c.length > m
    · simp [counterRun, counterStep, hc] at hn
    · simp only [counterRun, counterStep] at hn ⊢
      simp [hc] at hn ⊢
      rw [ih _ hn, chunksLen_cons]
      omega

/-- The only error the sink ever raises is `entityTooLarge m`. -/
theorem counterRun_errval (m : Nat) (cs : List (List Nat)) : ∀ bytes : Nat,
    (counterRun (some m) bytes cs).2.2 ≠ none →
      (counterRun (some m) bytes cs).2.2 = some (entityTooLarge m) := by
  induction cs with
  | nil => intro bytes hn; simp [counterRun] at hn
  | cons c cs ih =>
    intro bytes hn
    by_cases hc : bytes + c.length > m
    · simp [counterRun, counterStep, hc]
    · simp only [counterRun, counterStep] at hn ⊢
      simp [hc] at hn ⊢
      exact ih _ hn

/-- All cumulative totals up to the cutoff stay within the cap. -/
theorem cutoff_within (m : Nat) (cs : List (List Nat)) : ∀ bytes : Nat,
    bytes ≤ m → bytes + chunksLen (cs.take (cutoff m bytes cs)) ≤ m := by
  induction cs with
  | nil => intro bytes hb; simpa [cutoff, chunksLen_nil] using hb
  | cons c cs ih =>
    intro bytes hb
    by_cases hc : bytes + c.length > m
    · simpa [cutoff, hc, chunksLen_nil] using hb
    · have := ih (bytes + c.length) (by omega)
      simp [cutoff, hc, chunksLen_cons]
      omega

/-- When the input exceeds the cap, the chunk at the cutoff index is the
first whose addition pushes the cumulative total over it. -/
theorem cutoff_exceeds (m : Nat) (cs : List (List Nat)) : ∀ bytes : Nat,
    m < bytes + chunksLen cs →
      m < bytes + chunksLen (cs.take (cutoff m bytes cs + 1)) := by
  induction cs with
  | nil => intro bytes hy; simpa [cutoff, chunksLen_nil] using hy
  | cons c cs ih =>
    intro bytes hy
    by_cases hc : bytes + c.length > m
    · simp [cutoff, hc, chunksLen_cons, chunksLen_nil]
    · have hy2 : m < (bytes + c.length) + chunksLen cs := by
        rw [chunksLen_cons] at hy
        omega
      have := ih (bytes + c.length) hy2
      simp [cutoff, hc, chunksLen_cons]
      omega

/-- C6: with `maxBytes` set, the byte-counting sink passes through
exactly the prefix of chunks whose cumulative total stays within the
cap, unchanged; it succeeds (no error, reporting the total, which is
then at most the cap) iff the whole input fits; otherwise it raises the
413 `entityTooLarge` failure precisely at the first chunk whose addition
exceeds the cap. -/
theorem counter_sink_spec (m : Nat) (cs : List (List Nat)) :
    (counterRun (some m) 0 cs).1 = cs.take (cutoff m 0 cs) ∧
    ((counterRun (some m) 0 cs).2.2 = none ↔ chunksLen cs ≤ m) ∧
    (chunksLen cs ≤ m → (counterRun (some m) 0 cs).2.1 = chunksLen cs) ∧
    (m < chunksLen cs →
        (counterRun (some m) 0 cs).2.2 = some (entityTooLarge m) ∧
        chunksLen (cs.take (cutoff m 0 cs)) ≤ m ∧
        m < chunksLen (cs.take (cutoff m 0 cs + 1))) ∧
    (entityTooLarge m).statusCode = 413 := by
  have hiff := counterRun_err_iff m cs 0 (Nat.zero_le m)
  refine ⟨counterRun_take m cs 0, by simpa using hiff, ?_, ?_, rfl⟩
  · intro hle
    have := counterRun_bytes m cs 0 (hiff.mpr (by omega))
    omega
  · intro hgt
    refine ⟨?_, ?_, ?_⟩
    · refine counterRun_errval m cs 0 ?_
      intro hn
      have := hiff.mp hn
      omega
    · have := cutoff_within m cs 0 (Nat.zero_le m)
      omega
    · have := cutoff_exceeds m cs 0 (by omega)
      omega

/-- C6 witness: cap 3 against chunk lengths 1, 2, 2 — the first two
chunks pass unchanged, the third trips the 413 failure. -/
theorem counter_sink_spec_witness :
    (counterRun (some 3) 0 [[1], [2, 3], [4, 5]]).1 = [[1], [2, 3]] ∧
    (counterRun (some 3) 0 [[1], [2, 3], [4, 5]]).2.2
      = some (entityTooLarge 3) := by
  have h := counter_sink_spec 3 [[1], [2, 3], [4, 5]]
  refine ⟨?_, (h.2.2.2.1 (by decide)).1⟩
  rw [h.1]
  rfl

/-- The latch flips to settled exactly when it lets a delivery out. -/
theorem latchNext_bit (s : MPState) (a : MPAction) :
    settledBit (latchNext s a).1 = settledBit s + (latchNext s a).2.length := by
  by_cases h : s.settled <;> simp [latchNext, settledBit, h]

/-- The latch leaves every field other than `settled` unchanged. -/
theorem latchNext_preserve (s : MPState) (a : MPAction) :
    (latchNext s a).1.pendingFiles = s.pendingFiles ∧
    (latchNext s a).1.closeSeen = s.closeSeen ∧
    (latchNext s a).1.closed = s.closed ∧
    (latchNext s a).1.tempFiles = s.tempFiles := by
  by_cases h : s.settled <;> simp [latchNext, h]

/-- A delivery that escapes the latch is its argument, and only from the
unsettled state. -/
theorem mem_latchNext {s : MPState} {a b : MPAction}
    (h : b ∈ (latchNext s a).2) : s.settled = false ∧ b = a := by
  by_cases hs : s.settled <;> simp [latchNext, hs] at h ⊢
  exact h

theorem mpFinalize_bit (s : MPState) :
    settledBit (mpFinalize s).1 = settledBit s + (mpFinalize s).2.length := by
  have h := latchNext_bit
    { s with timerActive := false, listeners := false } (.deliver s.data)
  simpa [mpFinalize, settledBit] using h

theorem isEmpty_true {α : Type} {l : List α} (h : l.isEmpty = true) : l = [] := by
  cases l with
  | nil => rfl
  | cons a t => simp [List.isEmpty] at h

/-- Every step's deliveries go through the latch: the settled bit grows
by exactly the number of deliveries the step emits. -/
theorem mpStep_bit (s : MPState) (e : MPEvent) :
    settledBit (mpStep s e).1 = settledBit s + (mpStep s e).2.length := by
  cases e with
  | field n v => by_cases h : s.listeners <;> simp [mpStep, settledBit, h]
  | partFile n => by_cases h : s.listeners <;> simp [mpStep, settledBit, h]
  | fileDoneOk id path bytes =>
    cases hg : assocGet s.pendingFiles id with
    | none => simp [mpStep, hg]
    | some n =>
      simp only [mpStep, hg]
      split
      · rw [mpFinalize_bit]
        simp [settledBit]
      · simp [settledBit]
  | fileDoneErr id e =>
    cases hg : assocGet s.pendingFiles id with
    | none => simp [mpStep, hg]
    | some n =>
      simp only [mpStep, hg]
      rw [latchNext_bit]
      simp [settledBit]
  | close =>
    by_cases h : s.listeners
    · simp only [mpStep, h, if_true]
      split
      · rw [mpFinalize_bit]
        simp [settledBit]
      · simp [settledBit]
    · simp [mpStep, settledBit, h]
  | dispErr =>
    by_cases h : s.listeners
    · simp only [mpStep, h, if_true]
      exact latchNext_bit s _
    · simp [mpStep, settledBit, h]
  | decoderErr => exact latchNext_bit s _
  | timeout =>
    by_cases h : s.timerActive
    · simp only [mpStep, h, if_true]
      rw [latchNext_bit]
      simp [settledBit]
    · simp [mpStep, settledBit, h]

theorem mpRun_bit (es : List MPEvent) : ∀ s : MPState,
    settledBit (mpRun s es).1 = settledBit s + (mpRun s es).2.length := by
  induction es with
  | nil => intro s; simp [mpRun]
  | cons e es ih =>
    intro s
    simp only [mpRun, List.length_append]
    rw [ih, mpStep_bit]
    omega

theorem settledBit_le (s : MPState) : settledBit s ≤ 1 := by
  unfold settledBit
  split <;> omega

/-- C1: the completion callback fires at most once per parse.  Over any
trace of racing completion sources (decoder errors, scanner errors, part
failures, timeout expiry, late part completions) at most one delivery
reaches the caller, and from a settled latch none do. -/
theorem completion_latch_single_fire (s : MPState) (es : List MPEvent) :
    (s.settled = true → (mpRun s es).2 = []) ∧
    (mpRun s es).2.length + settledBit s ≤ 1 := by
  have hr := mpRun_bit es s
  have hle := settledBit_le (mpRun s es).1
  constructor
  · intro hs
    have h1 : settledBit s = 1 := by simp [settledBit, hs]
    have hlen : (mpRun s es).2.length = 0 := by omega
    exact List.length_eq_zero.mp hlen
  · omega

/-- C1 witness: a settled latch drops a timeout racing a scanner error,
and a fresh latch lets at most one of them through. -/
theorem completion_latch_single_fire_witness :
    (mpRun { mpInit true with settled := true }
        [MPEvent.timeout, MPEvent.dispErr]).2 = [] ∧
    (mpRun (mpInit true) [MPEvent.timeout, MPEvent.dispErr]).2.length
        + settledBit (mpInit true) ≤ 1 :=
  ⟨(completion_latch_single_fire { mpInit true with settled := true }
      [MPEvent.timeout, MPEvent.dispErr]).1 rfl,
    (completion_latch_single_fire (mpInit true)
      [MPEvent.timeout, MPEvent.dispErr]).2⟩

/-- C7: the aggregate is never delivered while a file write is pending.
The invariant `closed → closeSeen` holds initially and is preserved by
every step; any step that emits a success delivery ends with an empty
pending-file set and the scanner's close already observed; a close
arriving with writes outstanding delivers nothing and only marks the
deferral flag; and once closed, the settle of the last pending write
delivers the aggregate. -/
theorem aggregate_waits_for_pending_files :
    (∀ t : Bool, mpInv (mpInit t) = true) ∧
    (∀ (s : MPState) (e : MPEvent), mpInv s = true →
        mpInv (mpStep s e).1 = true) ∧
    (∀ (s : MPState) (e : MPEvent) (d : List (String × JS)),
        mpInv s = true → MPAction.deliver d ∈ (mpStep s e).2 →
        (mpStep s e).1.pendingFiles = [] ∧ (mpStep s e).1.closeSeen = true) ∧
    (∀ s : MPState, s.listeners = true → s.pendingFiles ≠ [] →
        (mpStep s MPEvent.close).2 = [] ∧ (mpStep s MPEvent.close).1.closed = true) ∧
    (∀ (s : MPState) (id : Nat) (n path : String) (bytes : Nat),
        s.closed = true → s.settled = false → s.pendingFiles = [(id, n)] →
        (mpStep s (MPEvent.fileDoneOk id path bytes)).2
          = [MPAction.deliver (set s.data n (.fileItem path bytes))]) := by
  refine ⟨fun t => rfl, ?_, ?_, ?_, ?_⟩
  · intro s e hinv
    cases e with
    | field n v => by_cases h : s.listeners <;> simp_all [mpStep, mpInv]
    | partFile n => by_cases h : s.listeners <;> simp_all [mpStep, mpInv]
    | fileDoneOk id path bytes =>
      cases hg : assocGet s.pendingFiles id with
      | none => simpa [mpStep, hg] using hinv
      | some n =>
        simp only [mpStep, hg]
        split
        · have hp := latchNext_preserve
            { s with pendingFiles := s.pendingFiles.filter (fun p => p.1 != id),
                     data := set s.data n (.fileItem path bytes),
                     timerActive := false, listeners := false }
            (.deliver (set s.data n (.fileItem path bytes)))
          simp_all [mpFinalize, mpInv, latchNext]
        · simpa [mpInv] using hinv
    | fileDoneErr id e =>
      cases hg : assocGet s.pendingFiles id with
      | none => simpa [mpStep, hg] using hinv
      | some n =>
        simp only [mpStep, hg]
        by_cases hs : s.settled <;> simp_all [mpInv, latchNext]
    | close =>
      by_cases h : s.listeners
      · simp only [mpStep, h, if_true]
        split
        · by_cases hs : s.settled <;> simp_all [mpInv, mpFinalize, latchNext]
        · simp [mpInv]
      · simpa [mpStep, h] using hinv
    | dispErr =>
      by_cases h : s.listeners
      · simp only [mpStep, h, if_true]
        by_cases hs : s.settled <;> simp_all [mpInv, latchNext]
      · simpa [mpStep, h] using hinv
    | decoderErr =>
      by_cases hs : s.settled <;> simp_all [mpStep, mpInv, latchNext]
    | timeout =>
      by_cases h : s.timerActive
      · simp only [mpStep, h, if_true]
        by_cases hs : s.settled <;> simp_all [mpInv, latchNext]
      · simpa [mpStep, h] using hinv
  · intro s e d hinv hmem
    cases e with
    | field n v => by_cases h : s.listeners <;> simp_all [mpStep]
    | partFile n => by_cases h : s.listeners <;> simp_all [mpStep]
    | fileDoneOk id path bytes =>
      cases hg : assocGet s.pendingFiles id with
      | none => simp [mpStep, hg] at hmem
      | some n =>
        simp only [mpStep, hg, mpFinalize, latchNext] at hmem ⊢
        split_ifs at hmem ⊢ with h1 h2
        · simp at hmem
        · rw [Bool.and_eq_true] at h1
          have hseen : s.closeSeen = true := by
            simp [mpInv, h1.1] at hinv
            exact hinv
          simp [isEmpty_true h1.2, hseen]
        · simp at hmem
    | fileDoneErr id e =>
      cases hg : assocGet s.pendingFiles id with
      | none => simp [mpStep, hg] at hmem
      | some n =>
        simp only [mpStep, hg] at hmem
        have hp := mem_latchNext hmem
        exact absurd hp.2 (by simp)
    | close =>
      by_cases h : s.listeners
      · simp only [mpStep, h, if_true, mpFinalize, latchNext] at hmem ⊢
        split_ifs at hmem ⊢ with h1 h2
        · simp at hmem
        · simp [isEmpty_true h1]
        · simp at hmem
      · simp [mpStep, h] at hmem
    | dispErr =>
      by_cases h : s.listeners
      · simp only [mpStep, h, if_true] at hmem
        have hp := mem_latchNext hmem
        exact absurd hp.2 (by simp)
      · simp [mpStep, h] at hmem
    | decoderErr =>
      simp only [mpStep] at hmem
      have hp := mem_latchNext hmem
      exact absurd hp.2 (by simp)
    | timeout =>
      by_cases h : s.timerActive
      · simp only [mpStep, h, if_true] at hmem
        have hp := mem_latchNext hmem
        exact absurd hp.2 (by simp)
      · simp [mpStep, h] at hmem
  · intro s hl hp
    have hne : s.pendingFiles.isEmpty = false := by
      cases hq : s.pendingFiles with
      | nil => exact absurd hq hp
      | cons a t => simp [List.isEmpty]
    simp [mpStep, hl, hne]
  · intro s id n path bytes hclosed hsettled hpend
    simp [mpStep, hpend, assocGet, mpFinalize, latchNext, hclosed, hsettled]

/-- C7 witness: with close already observed and one write pending, that
write's settle delivers the aggregate containing its item. -/
theorem aggregate_waits_for_pending_files_witness :
    (mpStep
        { mpInit false with
            closed := true,
            closeSeen := true,
            pendingFiles := [(0, "f")],
            nextId := 1,
            tempFiles := [0] }
        (MPEvent.fileDoneOk 0 "/tmp/x" 5)).2
      = [MPAction.deliver (set [] "f" (.fileItem "/tmp/x" 5))] :=
  aggregate_waits_for_pending_files.2.2.2.2
    { mpInit false with
        closed := true,
        closeSeen := true,
        pendingFiles := [(0, "f")],
        nextId := 1,
        tempFiles := [0] }
    0 "f" "/tmp/x" 5 rfl rfl rfl

/-- C9 counterexample: with a timeout configured, a part's file write is
in flight (its temp file exists) when the timer fires; the timeout is
reported, yet the pending write is not unwound and its temp file is
still present — nothing removed it before or alongside the failure. -/
theorem multipart_timeout_counterexample :
    (mpRun (mpInit true) [MPEvent.partFile "a", MPEvent.timeout]).2
      = [MPAction.deliverErr clientTimeoutErr] ∧
    (mpRun (mpInit true) [MPEvent.partFile "a", MPEvent.timeout]).1.tempFiles
      = [0] ∧
    (mpRun (mpInit true) [MPEvent.partFile "a", MPEvent.timeout]).1.pendingFiles
      = [(0, "a")] ∧
    clientTimeoutErr.statusCode = 408 :=
  ⟨rfl, rfl, rfl, rfl⟩

/-- C9 (amended): timer expiry delivers the 408 timeout error through
the completion latch but does not unwind in-flight file writes — the
pending set and the on-disk temp files are untouched; a write completing
after the latch settled is silently dropped; a part's temp file is
removed only when that write itself fails (or the request aborts, which
surfaces as the same failing callback). -/
theorem multipart_timeout_no_unwind (s : MPState) (h : s.timerActive = true) :
    (mpStep s MPEvent.timeout).2
      = (if s.settled then [] else [MPAction.deliverErr clientTimeoutErr]) ∧
    (mpStep s MPEvent.timeout).1.tempFiles = s.tempFiles ∧
    (mpStep s MPEvent.timeout).1.pendingFiles = s.pendingFiles ∧
    clientTimeoutErr.statusCode = 408 ∧
    (∀ (id : Nat) (path : String) (bytes : Nat), s.settled = true →
        (mpStep s (MPEvent.fileDoneOk id path bytes)).2 = []) ∧
    (∀ (id : Nat) (e2 : SubErr),
        (mpStep s (MPEvent.fileDoneErr id e2)).1.tempFiles
          = if (assocGet s.pendingFiles id).isSome
            then s.tempFiles.filter (fun j => j != id) else s.tempFiles) := by
  refine ⟨?_, ?_, ?_, rfl, ?_, ?_⟩
  · by_cases hs : s.settled <;> simp [mpStep, h, latchNext, hs]
  · by_cases hs : s.settled <;> simp [mpStep, h, latchNext, hs]
  · by_cases hs : s.settled <;> simp [mpStep, h, latchNext, hs]
  · intro id path bytes hs
    cases hg : assocGet s.pendingFiles id with
    | none => simp [mpStep, hg]
    | some n =>
      simp only [mpStep, hg]
      split
      · simp [mpFinalize, latchNext, hs]
      · rfl
  · intro id e2
    cases hg : assocGet s.pendingFiles id with
    | none => simp [mpStep, hg]
    | some n =>
      simp only [mpStep, hg]
      by_cases hs : s.settled <;> simp [latchNext, hs, hg]

/-- C9 amended-claim witness: concrete in-flight state, timer firing. -/
theorem multipart_timeout_no_unwind_witness :
    (mpStep
        { mpInit true with
            tempFiles := [0],
            pendingFiles := [(0, "a")],
            nextId := 1 }
        MPEvent.timeout).2
      = [MPAction.deliverErr clientTimeoutErr] ∧
    (mpStep
        { mpInit true with
            tempFiles := [0],
            pendingFiles := [(0, "a")],
            nextId := 1 }
        MPEvent.timeout).1.tempFiles = [0] := by
  have h := multipart_timeout_no_unwind
    { mpInit true with
        tempFiles := [0],
        pendingFiles := [(0, "a")],
        nextId := 1 }
    rfl
  refine ⟨?_, h.2.1⟩
  rw [h.1]
  rfl

end Subtext
